import Mathlib

/-!
Verification development for the checkpoint-management core
(`src/bitcoin/checkpoint.rs`): the checkpoint lifecycle state machine and the
bounded-window queue addressed by a monotonically increasing u32 global index.

Machine integers are modelled as `Nat` with explicit wrap-around modulo `2^32`
where the source performs `u32` arithmetic.  Fallible operations return
`Except CkError`; operations that mutate through `&mut self` are modelled in
state-passing style, returning the result together with the state at the point
of return (so that partial mutation before an error is observable, matching
the in-memory behaviour of the source; the host runtime discards the state of
a failed step).

Collaborators whose code is outside `src/` (the `ThresholdSig` and
`SignatorySet` collaborators and the persistent bounded-queue substrate) are
modelled from the spec; each such definition is marked in its doc comment.
-/

/-- Wrap-around modulus of the `u32` arithmetic used by the source. -/
def u32Mod : Nat := 4294967296

/-- Wrapping `u32` addition, as performed on `self.index` in the source. -/
def u32add (a b : Nat) : Nat := (a + b) % u32Mod

/-- Wrapping `u32` subtraction: `a - b` with two's-complement wrap-around
(the second operand is first truncated to `u32`, matching the
`self.queue.len() as u32` cast in `get_deque_index`). -/
def u32sub (a b : Nat) : Nat := (a + u32Mod - b % u32Mod) % u32Mod

/-- `INITIAL_QUORUM_PERCENT` from `checkpoint.rs` line 21. -/
def INITIAL_QUORUM_PERCENT : Nat := 70

/-- Error kinds surfaced by the checkpoint core: the two `App` errors raised
in `checkpoint.rs`, the signature errors of the ThresholdSig collaborator
(spec §7 Signature-Rejected), and a marker for an `unwrap()` of `None`. -/
inductive CkError where
  | indexOutOfBounds
  | noCheckpointToSign
  | sigInvalid
  | sigNotMember
  | sigDuplicate
  | panicNone
  deriving DecidableEq, Repr

/-- `CheckpointStatus` from `checkpoint.rs` lines 23-28. -/
inductive CheckpointStatus where
  | Building
  | Signing
  | Complete
  deriving DecidableEq, Repr

/-- `Default for CheckpointStatus` (lines 30-34) yields `Building`. -/
instance : Inhabited CheckpointStatus := ⟨.Building⟩

/-- Modelled from the spec: the cryptographic validity of a submitted partial
signature is decided inside the ThresholdSig collaborator (§4.5), whose code
is not under `src/`; we abstract it as an attribute of the signature value. -/
structure Signature where
  valid : Bool
  deriving DecidableEq, Repr

/-- Modelled from the spec (§4.5): the `ThresholdSig` collaborator state — the
weighted member list of its governing SignatorySet and the keys that have
already signed.  Public keys and weights are abstracted as naturals. -/
structure ThresholdSig where
  members : List (Nat × Nat)
  signedKeys : List Nat
  deriving DecidableEq, Repr

instance : Inhabited ThresholdSig := ⟨⟨[], []⟩⟩

/-- Modelled from the spec (§4.5): total weight of the governing SignatorySet. -/
def tsTotalWeight (ts : ThresholdSig) : Nat :=
  (ts.members.map Prod.snd).sum

/-- Modelled from the spec (§4.5): accumulated signing weight — the sum of the
weights of the members that have signed. -/
def tsSignedWeight (ts : ThresholdSig) : Nat :=
  ((ts.members.filter (fun m => ts.signedKeys.contains m.1)).map Prod.snd).sum

/-- Modelled from the spec (§4.5): `sign(public_key, signature)` verifies the
signature is valid, that the key is a member of the governing SignatorySet and
that it has not already signed, and records the member on success. -/
def tsSign (ts : ThresholdSig) (pk : Nat) (s : Signature) : Except CkError ThresholdSig :=
  if s.valid = false then .error .sigInvalid
  else if (ts.members.find? (fun m => m.1 == pk)).isNone then .error .sigNotMember
  else if ts.signedKeys.contains pk then .error .sigDuplicate
  else .ok { ts with signedKeys := pk :: ts.signedKeys }

/-- Modelled from the spec (§4.5): `done()` is true once accumulated signing
weight is at least `INITIAL_QUORUM_PERCENT` (70%) of the SignatorySet's total
weight. -/
def tsDone (ts : ThresholdSig) : Bool :=
  decide (INITIAL_QUORUM_PERCENT * tsTotalWeight ts ≤ 100 * tsSignedWeight ts)

/-- Modelled from the spec (§4.6): the `SignatorySet` collaborator — a weighted
signer list (Bitcoin-compatible key, weight). -/
structure SignatorySet where
  signatories : List (Nat × Nat)
  deriving DecidableEq, Repr

instance : Inhabited SignatorySet := ⟨⟨[]⟩⟩

/-- Modelled from the spec (§4.6): one validator of the host-provided context —
consensus key, staking power, and optionally a registered Bitcoin key. -/
structure Validator where
  consKey : Nat
  power : Nat
  btcKey : Option Nat
  deriving DecidableEq, Repr

/-- Modelled from the spec (§4.6): the validator context (consensus key to
Bitcoin key mapping plus power distribution), read-only to this core. -/
def ValCtx : Type := List Validator

/-- Modelled from the spec (§4.6): `from_validator_ctx` deterministically
builds the weighted signer list from the validator power distribution and each
validator's registered Bitcoin key; validators without a registered key are
excluded.  Its code is not under `src/`. -/
def fromValidatorCtx (_index : Nat) (ctx : ValCtx) : SignatorySet :=
  ⟨ctx.filterMap (fun v => v.btcKey.map (fun k => (k, v.power)))⟩

/-- `Input` from `checkpoint.rs` lines 73-79: previous-transaction id
(`Adapter<Txid>`, default all-zero, abstracted as `Nat` with default `0`),
previous output index `vout`, and the per-input signature state.  The
`script_pubkey` field is the unit type in the source and is omitted. -/
structure Input where
  txid : Nat
  vout : Nat
  sig : ThresholdSig
  deriving DecidableEq, Repr

instance : Inhabited Input := ⟨⟨0, 0, default⟩⟩

/-- `Output` from `checkpoint.rs` lines 81-85. -/
structure Output where
  amount : Nat
  script : List Nat
  deriving DecidableEq, Repr

/-- `Checkpoint` from `checkpoint.rs` lines 87-94. -/
structure Checkpoint where
  status : CheckpointStatus
  inputs : List Input
  outputs : List Output
  sig : ThresholdSig
  sigset : SignatorySet
  deriving DecidableEq, Repr

instance : Inhabited Checkpoint := ⟨⟨default, [], [], default, default⟩⟩

/-- `CheckpointQueue` from `checkpoint.rs` lines 96-100: the retained window
of checkpoints (front = oldest) and the `u32` global index of the newest. -/
structure CheckpointQueue where
  queue : List Checkpoint
  index : Nat
  deriving DecidableEq, Repr

/-- The initial queue state: empty window, global index `0`. -/
def initQueue : CheckpointQueue := ⟨[], 0⟩

/-- `get_deque_index` (lines 135-142): translate a global index to a window
position.  `start = self.index + 1 - (self.queue.len() as u32)` in `u32`
arithmetic; a request outside `[start, self.index]` fails with
Index-Out-Of-Bounds, otherwise the position is `index - start`. -/
def CheckpointQueue.getDequeIndex (q : CheckpointQueue) (index : Nat) : Except CkError Nat :=
  let start := u32sub (u32add q.index 1) q.queue.length
  if index > q.index ∨ index < start then .error .indexOutOfBounds
  else .ok (index - start)

/-- Resolve a global index to a checked window position: `get_deque_index`
followed by the `self.queue.get(..)?.unwrap()` of `get`/`get_mut` (an
`unwrap()` of `None` is modelled as the `panicNone` error). -/
def CheckpointQueue.getIdx (q : CheckpointQueue) (index : Nat) : Except CkError Nat :=
  match q.getDequeIndex index with
  | .error e => .error e
  | .ok pos =>
    match q.queue[pos]? with
    | some _ => .ok pos
    | none => .error .panicNone

/-- `get` (lines 124-128). -/
def CheckpointQueue.get (q : CheckpointQueue) (index : Nat) : Except CkError Checkpoint :=
  match q.getIdx index with
  | .error e => .error e
  | .ok pos => .ok (q.queue.getD pos default)

/-- `get_mut` (lines 130-133): identical resolution to `get`; the returned
handle is modelled by the resolved checkpoint (writes through the handle are
modelled at each call site by updating the resolved position). -/
def CheckpointQueue.getMut (q : CheckpointQueue) (index : Nat) : Except CkError Checkpoint :=
  match q.getIdx index with
  | .error e => .error e
  | .ok pos => .ok (q.queue.getD pos default)

/-- Loop of `all` (lines 149-163), with the remaining iteration count made
explicit (`count` iterations left, loop counter at `i`): each iteration reads
the deque at position `self.index - i` (the raw global index, not a
translated window position) and pairs it with that index; `None.unwrap()`
aborts with `panicNone`. -/
def CheckpointQueue.allGo (q : CheckpointQueue) :
    Nat → Nat → Except CkError (List (Nat × Checkpoint))
  | 0, _ => .ok []
  | count + 1, i =>
    let idx := u32sub q.index i
    match q.queue[idx]? with
    | some c =>
      match q.allGo count (i + 1) with
      | .ok rest => .ok ((idx, c) :: rest)
      | .error e => .error e
    | none => .error .panicNone

/-- `all` (lines 149-163): loop `i` over `0..self.queue.len()`. -/
def CheckpointQueue.all (q : CheckpointQueue) : Except CkError (List (Nat × Checkpoint)) :=
  q.allGo q.queue.length 0

/-- `signing`/`signing_mut` (lines 186-210): `none` when the window holds
fewer than 2 entries; otherwise resolve global index `self.index - 1` (wrapping
`u32` subtraction) and return its position only if that checkpoint's status is
`Signing`. -/
def CheckpointQueue.signingPos (q : CheckpointQueue) : Except CkError (Option Nat) :=
  if q.queue.length < 2 then .ok none
  else
    match q.getIdx (u32sub q.index 1) with
    | .error e => .error e
    | .ok p =>
      if (q.queue.getD p default).status = .Signing then .ok (some p) else .ok none

/-- `building` (lines 212-215): `get(self.index)`. -/
def CheckpointQueue.building (q : CheckpointQueue) : Except CkError Checkpoint :=
  q.get q.index

/-- `building_mut` (lines 217-220): `get_mut(self.index)`. -/
def CheckpointQueue.buildingMut (q : CheckpointQueue) : Except CkError Checkpoint :=
  q.getMut q.index

/-- `push_building` (lines 252-270), in state-passing style.  The source
captures the current index, increments `self.index` (wrapping `u32`) if the
window is nonempty, derives a SignatorySet for the captured index, appends a
default checkpoint, and attaches the SignatorySet through `building_mut`.
The bounded append (front eviction once the window exceeds its configured
capacity `cap`) is modelled from the spec (§4.3/§6): the queue substrate is an
external collaborator not under `src/`. -/
def CheckpointQueue.pushBuilding (q : CheckpointQueue) (cap : Nat) (ctx : ValCtx) :
    Except CkError Unit × CheckpointQueue :=
  let index := q.index
  let newIndex := if q.queue.isEmpty then q.index else u32add q.index 1
  let sigset := fromValidatorCtx index ctx
  let appended := q.queue ++ [default]
  let w := if appended.length > cap then appended.drop 1 else appended
  match CheckpointQueue.getIdx ⟨w, newIndex⟩ newIndex with
  | .error e => (.error e, ⟨w, newIndex⟩)
  | .ok p =>
    (.ok (), ⟨w.set p { w.getD p default with sigset := sigset }, newIndex⟩)

/-- `maybe_advance` (lines 222-239) with the `full` feature enabled: when the
window is empty, derive a SignatorySet for the current index and, unless it is
empty, push the first Building checkpoint; otherwise do nothing. -/
def CheckpointQueue.maybeAdvance (q : CheckpointQueue) (cap : Nat) (ctx : ValCtx) :
    Except CkError Unit × CheckpointQueue :=
  if q.queue.isEmpty then
    if (fromValidatorCtx q.index ctx).signatories.length = 0 then (.ok (), q)
    else q.pushBuilding cap ctx
  else (.ok (), q)

/-- `sign_checkpoint` (lines 274-298), in state-passing style.  Locate the
Signing checkpoint (error `noCheckpointToSign` if none), record the signature
through the ThresholdSig collaborator, and, if the aggregate signature is then
done, set the status to `Complete`, append a default `Input` to the Building
checkpoint, and set `vout := 0` on the input obtained by
`building.inputs.get_mut(0)` (the input at position `0`).  The assignments of
the reserve txid and of the input's signature setup are commented out in the
source and therefore absent here. -/
def CheckpointQueue.signCheckpoint (q : CheckpointQueue) (pk : Nat) (s : Signature) :
    Except CkError Unit × CheckpointQueue :=
  match q.signingPos with
  | .error e => (.error e, q)
  | .ok none => (.error .noCheckpointToSign, q)
  | .ok (some p) =>
    let cp := q.queue.getD p default
    match tsSign cp.sig pk s with
    | .error e => (.error e, q)
    | .ok ts =>
      let cp1 := { cp with sig := ts }
      let qA := { q with queue := q.queue.set p cp1 }
      if tsDone ts then
        let cp2 := { cp1 with status := .Complete }
        let qB := { qA with queue := qA.queue.set p cp2 }
        match qB.getIdx qB.index with
        | .error e => (.error e, qB)
        | .ok b =>
          let bcp := qB.queue.getD b default
          let bcp1 := { bcp with inputs := bcp.inputs ++ [default] }
          let qC := { qB with queue := qB.queue.set b bcp1 }
          match bcp1.inputs[0]? with
          | none => (.error .panicNone, qC)
          | some inp0 =>
            let inp1 := { inp0 with vout := 0 }
            let bcp2 := { bcp1 with inputs := bcp1.inputs.set 0 inp1 }
            (.ok (), { qC with queue := qC.queue.set b bcp2 })
      else (.ok (), qA)

/-- Host-rollback wrapper around `push_building`: keep the new state only on
success (§7: a failed step is discarded whole by the host runtime). -/
def CheckpointQueue.pushRun (q : CheckpointQueue) (cap : Nat) (ctx : ValCtx) :
    CheckpointQueue :=
  match q.pushBuilding cap ctx with
  | (.ok _, q1) => q1
  | (.error _, _) => q

/-- State after a sequence of `push_building` calls (one validator context per
call) starting from the initial queue. -/
def pushFold (cap : Nat) (ctxs : List ValCtx) : CheckpointQueue :=
  ctxs.foldl (fun q ctx => q.pushRun cap ctx) initQueue

/-- One externally drivable step of the queue (spec §6): a host-invoked
`maybe_advance` or an externally invoked `sign_checkpoint`, with arbitrary
validator context / signer input; a failed call is discarded by the host and
contributes no step. -/
inductive StepPub (cap : Nat) : CheckpointQueue → CheckpointQueue → Prop where
  | advance (ctx : ValCtx) (q q1 : CheckpointQueue) :
      q.maybeAdvance cap ctx = (.ok (), q1) → StepPub cap q q1
  | sign (pk : Nat) (s : Signature) (q q1 : CheckpointQueue) :
      q.signCheckpoint pk s = (.ok (), q1) → StepPub cap q q1

/-- Reachability from the initial empty queue via `maybe_advance` and
`sign_checkpoint`. -/
def ReachPub (cap : Nat) (q : CheckpointQueue) : Prop :=
  Relation.ReflTransGen (StepPub cap) initQueue q

/-- One step of the queue including internal `push_building` calls. -/
inductive StepAll (cap : Nat) : CheckpointQueue → CheckpointQueue → Prop where
  | advance (ctx : ValCtx) (q q1 : CheckpointQueue) :
      q.maybeAdvance cap ctx = (.ok (), q1) → StepAll cap q q1
  | push (ctx : ValCtx) (q q1 : CheckpointQueue) :
      q.pushBuilding cap ctx = (.ok (), q1) → StepAll cap q q1
  | sign (pk : Nat) (s : Signature) (q q1 : CheckpointQueue) :
      q.signCheckpoint pk s = (.ok (), q1) → StepAll cap q q1

/-- Reachability from the initial empty queue via `maybe_advance`,
`push_building` and `sign_checkpoint`. -/
def ReachAll (cap : Nat) (q : CheckpointQueue) : Prop :=
  Relation.ReflTransGen (StepAll cap) initQueue q

/-- A Signing checkpoint holding one unit-weight member that has not signed
yet: a single valid signature reaches the 70% quorum. -/
def cpSigningOne : Checkpoint :=
  { (default : Checkpoint) with status := .Signing, sig := ⟨[(1, 1)], []⟩ }

/-- Concrete state for the reserve-chaining divergence: a Signing checkpoint
one signature short of quorum, and a Building checkpoint that already holds an
input with txid 9 and vout 7. -/
def c1State : CheckpointQueue :=
  ⟨[cpSigningOne, { (default : Checkpoint) with inputs := [⟨9, 7, default⟩] }], 1⟩

/-- Concrete quorum-crossing state: a Signing checkpoint one signature short
of quorum, followed by the (empty) Building checkpoint. -/
def c2State : CheckpointQueue := ⟨[cpSigningOne, default], 1⟩

/-- A validator context with a single unit-power validator holding a
registered Bitcoin key. -/
def c6Ctx : ValCtx := [⟨1, 1, some 1⟩]

/-- The state produced by the first `maybe_advance` under `c6Ctx`: one
Building checkpoint at global index 0 carrying the derived SignatorySet. -/
def c6State : CheckpointQueue :=
  ⟨[{ (default : Checkpoint) with sigset := ⟨[(1, 1)]⟩ }], 0⟩

deriving instance DecidableEq for Except

/-! ## Arithmetic facts about the u32 window translation -/

/-- When the window is well-formed (`len ≤ index + 1`, `index` a u32, and not
the degenerate empty-window-at-u32-max corner), the wrapped computation of
`start` agrees with the exact value `index + 1 - len`. -/
theorem u32start_exact {i L : Nat} (hi : i < u32Mod) (hL : L ≤ i + 1)
    (hnz : 1 ≤ L ∨ i + 1 < u32Mod) :
    u32sub (u32add i 1) L = i + 1 - L := by
  simp only [u32add, u32sub, u32Mod] at *
  omega

/-- When the window is longer than `index + 1`, the wrapped `start` exceeds
`index`, so every request is rejected. -/
theorem u32start_gt {i L : Nat} (hi : i < u32Mod) (hL : L < u32Mod)
    (h : i + 1 < L) :
    i < u32sub (u32add i 1) L := by
  simp only [u32add, u32sub, u32Mod] at *
  omega

/-- Wrapped decrement agrees with exact subtraction for positive u32 values. -/
theorem u32sub_one_exact {i : Nat} (hi : i < u32Mod) (h1 : 1 ≤ i) :
    u32sub i 1 = i - 1 := by
  simp only [u32sub, u32Mod] at *
  omega

/-! ## Resolution behaviour of `get_deque_index`, `get`, `get_mut` -/

/-- Full characterisation of `get`/`get_mut`/`get_deque_index` on a
well-formed window: a request succeeds exactly on the retained range
`[index + 1 - len, index]`, resolving to position `i - (index + 1 - len)`,
and fails with Index-Out-Of-Bounds everywhere else. -/
theorem get_resolve (q : CheckpointQueue) (i : Nat)
    (hidx : q.index < u32Mod)
    (hlen : q.queue.length ≤ q.index + 1)
    (hne : q.queue.length ≠ 0 ∨ q.index + 1 < u32Mod) :
    (q.index + 1 - q.queue.length ≤ i ∧ i ≤ q.index →
      q.getDequeIndex i = .ok (i - (q.index + 1 - q.queue.length)) ∧
      i - (q.index + 1 - q.queue.length) < q.queue.length ∧
      q.getIdx i = .ok (i - (q.index + 1 - q.queue.length)) ∧
      q.get i = .ok (q.queue.getD (i - (q.index + 1 - q.queue.length)) default) ∧
      q.getMut i = .ok (q.queue.getD (i - (q.index + 1 - q.queue.length)) default)) ∧
    (¬(q.index + 1 - q.queue.length ≤ i ∧ i ≤ q.index) →
      q.getDequeIndex i = .error .indexOutOfBounds ∧
      q.getIdx i = .error .indexOutOfBounds ∧
      q.get i = .error .indexOutOfBounds ∧
      q.getMut i = .error .indexOutOfBounds) := by
  have hstart : u32sub (u32add q.index 1) q.queue.length
      = q.index + 1 - q.queue.length := by
    apply u32start_exact hidx hlen
    rcases hne with h | h
    · exact Or.inl (Nat.one_le_iff_ne_zero.mpr h)
    · exact Or.inr h
  constructor
  · rintro ⟨h1, h2⟩
    have hlpos : 1 ≤ q.queue.length := by omega
    have hdq : q.getDequeIndex i = .ok (i - (q.index + 1 - q.queue.length)) := by
      unfold CheckpointQueue.getDequeIndex
      rw [hstart]
      have hcond : ¬(i > q.index ∨ i < q.index + 1 - q.queue.length) := by omega
      simp only [hcond, if_false]
    have hpos : i - (q.index + 1 - q.queue.length) < q.queue.length := by omega
    refine ⟨hdq, hpos, ?_, ?_, ?_⟩ <;>
    · simp only [CheckpointQueue.get, CheckpointQueue.getMut, CheckpointQueue.getIdx]
      rw [hdq]
      simp [List.getElem?_eq_getElem hpos]
  · intro hout
    have hdq : q.getDequeIndex i = .error .indexOutOfBounds := by
      unfold CheckpointQueue.getDequeIndex
      rw [hstart]
      have hcond : i > q.index ∨ i < q.index + 1 - q.queue.length := by omega
      simp only [hcond, if_true]
    refine ⟨hdq, ?_, ?_, ?_⟩ <;>
    · simp only [CheckpointQueue.get, CheckpointQueue.getMut, CheckpointQueue.getIdx]
      rw [hdq]

/-- On a well-formed window, `signing`/`signing_mut` find no Signing
checkpoint (returning `none`) exactly as the spec describes: fewer than 2
entries, or a second-newest entry whose status is not Signing. -/
theorem signingPos_none (q : CheckpointQueue)
    (hidx : q.index < u32Mod) (hlen : q.queue.length ≤ q.index + 1)
    (hns : q.queue.length < 2 ∨
      (q.queue.getD (q.queue.length - 2) default).status ≠ .Signing) :
    q.signingPos = .ok none := by
  unfold CheckpointQueue.signingPos
  rcases Nat.lt_or_ge q.queue.length 2 with h2 | h2
  · simp [h2]
  · have hlt : ¬q.queue.length < 2 := by omega
    have hi1 : 1 ≤ q.index := by omega
    have hsub : u32sub q.index 1 = q.index - 1 := u32sub_one_exact hidx hi1
    have hr := (get_resolve q (q.index - 1) hidx hlen (Or.inl (by omega))).1
      (by constructor <;> omega)
    have hpos : q.index - 1 - (q.index + 1 - q.queue.length)
        = q.queue.length - 2 := by omega
    have hgi : q.getIdx (q.index - 1) = .ok (q.queue.length - 2) := by
      rw [← hpos]; exact hr.2.2.1
    rcases hns with h | h
    · omega
    · simp only [hlt, if_false, hsub, hgi, h, if_false]

/-- When a Signing checkpoint is found, it is the second-newest entry:
`signing_mut` yields position `len - 2`, the window holds at least two
entries, and that entry's status is Signing. -/
theorem signingPos_some (q : CheckpointQueue) (p : Nat)
    (h : q.signingPos = .ok (some p)) :
    ¬q.queue.length < 2 ∧
    q.getIdx (u32sub q.index 1) = .ok p ∧
    (q.queue.getD p default).status = .Signing := by
  unfold CheckpointQueue.signingPos at h
  split at h
  · exact absurd h (by simp)
  next h2 =>
    split at h
    next e hg => exact absurd h (by simp)
    next p' hg =>
      split at h
      next hs =>
        rw [Except.ok.injEq, Option.some.injEq] at h
        subst h
        exact ⟨h2, hg, hs⟩
      next hs => exact absurd h (by simp)

/-- Claim C3 counterexample: in the queue state with window length 2 and
global index 0, the claim's range test (over the integers,
`g + 1 - len = -1 ≤ 0 ≤ 0 = g`) declares request 0 valid, but `get` and
`get_mut` fail with Index-Out-Of-Bounds because the unsigned computation of
`start = index + 1 - len` wraps around. -/
theorem c3_counterexample :
    ((0 : Int) + 1 - 2 ≤ 0 ∧ (0 : Int) ≤ 0) ∧
    CheckpointQueue.get ⟨[default, default], 0⟩ 0 = .error .indexOutOfBounds ∧
    CheckpointQueue.getMut ⟨[default, default], 0⟩ 0 = .error .indexOutOfBounds :=
  ⟨by norm_num, by decide, by decide⟩

/-- Claim C3 (amended): for every queue state whose window length is at most
`index + 1` — as holds in every reachable state — and whose fields are u32
values (excluding the corner of an empty window at index `u32::MAX`),
`get(i)` and `get_mut(i)` succeed and resolve to window position
`i - (index + 1 - len)` if and only if `index + 1 - len ≤ i ≤ index`, and for
every other `i` they fail with the Index-Out-Of-Bounds error. -/
theorem c3_get_range (q : CheckpointQueue) (i : Nat)
    (hidx : q.index < u32Mod)
    (hlen : q.queue.length ≤ q.index + 1)
    (hne : q.queue.length ≠ 0 ∨ q.index + 1 < u32Mod) :
    (q.index + 1 - q.queue.length ≤ i ∧ i ≤ q.index →
      q.getDequeIndex i = .ok (i - (q.index + 1 - q.queue.length)) ∧
      i - (q.index + 1 - q.queue.length) < q.queue.length ∧
      q.getIdx i = .ok (i - (q.index + 1 - q.queue.length)) ∧
      q.get i = .ok (q.queue.getD (i - (q.index + 1 - q.queue.length)) default) ∧
      q.getMut i = .ok (q.queue.getD (i - (q.index + 1 - q.queue.length)) default)) ∧
    (¬(q.index + 1 - q.queue.length ≤ i ∧ i ≤ q.index) →
      q.getDequeIndex i = .error .indexOutOfBounds ∧
      q.getIdx i = .error .indexOutOfBounds ∧
      q.get i = .error .indexOutOfBounds ∧
      q.getMut i = .error .indexOutOfBounds) :=
  get_resolve q i hidx hlen hne

/-- Concrete instantiation of c3_get_range: on a one-entry window at index 0,
request 0 succeeds and request 5 is rejected. -/
theorem c3_get_range_witness :
    (⟨[default], 0⟩ : CheckpointQueue).queue.length ≤ 0 + 1 ∧
    CheckpointQueue.get ⟨[default], 0⟩ 0
      = .ok ((⟨[default], 0⟩ : CheckpointQueue).queue.getD 0 default) ∧
    CheckpointQueue.get ⟨[default], 0⟩ 5 = .error .indexOutOfBounds :=
  ⟨by decide,
   ((c3_get_range ⟨[default], 0⟩ 0 (by decide) (by decide)
      (Or.inl (by decide))).1 (by decide)).2.2.2.1,
   ((c3_get_range ⟨[default], 0⟩ 5 (by decide) (by decide)
      (Or.inl (by decide))).2 (by decide)).2.2.1⟩

/-- Claim C9 counterexample: on the empty queue — the initial state, which
`maybe_advance` keeps empty while no signatories exist — `building` and
`building_mut` fail with Index-Out-Of-Bounds rather than succeeding
unconditionally. -/
theorem c9_counterexample :
    initQueue.building = .error .indexOutOfBounds ∧
    initQueue.buildingMut = .error .indexOutOfBounds :=
  ⟨by decide, by decide⟩

/-- Claim C9 (amended): for every queue state whose window is nonempty and
well-formed (`len ≤ index + 1`, u32 index), `building()` and `building_mut()`
succeed and return the newest entry (the back of the window). -/
theorem c9_building_newest (q : CheckpointQueue)
    (hidx : q.index < u32Mod)
    (hlen : q.queue.length ≤ q.index + 1)
    (hne : q.queue.length ≠ 0) :
    q.building = .ok (q.queue.getD (q.queue.length - 1) default) ∧
    q.buildingMut = .ok (q.queue.getD (q.queue.length - 1) default) := by
  have hr := (get_resolve q q.index hidx hlen (Or.inl hne)).1 (by omega)
  have hpos : q.index - (q.index + 1 - q.queue.length) = q.queue.length - 1 := by
    omega
  unfold CheckpointQueue.building CheckpointQueue.buildingMut
  rw [← hpos]
  exact ⟨hr.2.2.2.1, hr.2.2.2.2⟩

/-- Concrete instantiation of c9_building_newest on a one-entry window. -/
theorem c9_building_newest_witness :
    (⟨[default], 0⟩ : CheckpointQueue).queue.length ≠ 0 ∧
    (⟨[default], 0⟩ : CheckpointQueue).building = .ok default :=
  ⟨by decide, (c9_building_newest ⟨[default], 0⟩ (by decide) (by decide)
    (by decide)).1⟩

/-- Claim C7 counterexample: a queue holding two Building checkpoints at
global index 0 has no checkpoint in Signing state (window length 2, the
second-newest entry is Building), yet `sign_checkpoint` fails with
Index-Out-Of-Bounds — surfaced from the wrapped `self.index - 1` lookup in
`signing_mut` — rather than with No-Checkpoint-To-Sign. -/
theorem c7_counterexample :
    ((⟨[default, default], 0⟩ : CheckpointQueue).queue.getD 0 default).status
        ≠ .Signing ∧
    ((⟨[default, default], 0⟩ : CheckpointQueue).signCheckpoint 1 ⟨true⟩).1
        = .error .indexOutOfBounds ∧
    CkError.indexOutOfBounds ≠ CkError.noCheckpointToSign :=
  ⟨by decide, by decide, by decide⟩

/-- Claim C7 (amended): for every well-formed queue state
(`len ≤ index + 1`, u32 index) in which no checkpoint is in Signing state —
fewer than 2 entries, or a second-newest entry whose status is not Signing —
`sign_checkpoint` fails with the No-Checkpoint-To-Sign error and leaves the
queue state entirely unchanged. -/
theorem c7_no_signing_error (q : CheckpointQueue) (pk : Nat) (s : Signature)
    (hidx : q.index < u32Mod) (hlen : q.queue.length ≤ q.index + 1)
    (hns : q.queue.length < 2 ∨
      (q.queue.getD (q.queue.length - 2) default).status ≠ .Signing) :
    q.signCheckpoint pk s = (.error .noCheckpointToSign, q) := by
  unfold CheckpointQueue.signCheckpoint
  rw [signingPos_none q hidx hlen hns]

/-- Concrete instantiation of c7_no_signing_error on a one-entry window. -/
theorem c7_no_signing_error_witness :
    (⟨[default], 0⟩ : CheckpointQueue).queue.length < 2 ∧
    (⟨[default], 0⟩ : CheckpointQueue).signCheckpoint 1 ⟨true⟩
      = (.error .noCheckpointToSign, ⟨[default], 0⟩) :=
  ⟨by decide, c7_no_signing_error ⟨[default], 0⟩ 1 ⟨true⟩ (by decide) (by decide)
    (Or.inl (by decide))⟩

/-- Inversion of a successful `get_deque_index`: the request is at most the
global index, at least the wrapped `start`, and resolves to their difference. -/
theorem getDequeIndex_ok_inv (q : CheckpointQueue) (i p : Nat)
    (h : q.getDequeIndex i = .ok p) :
    i ≤ q.index ∧ u32sub (u32add q.index 1) q.queue.length ≤ i ∧
    p = i - u32sub (u32add q.index 1) q.queue.length := by
  simp only [CheckpointQueue.getDequeIndex] at h
  split at h
  · exact absurd h (by simp)
  next hc =>
    rw [Except.ok.injEq] at h
    push_neg at hc
    exact ⟨hc.1, hc.2, h.symm⟩

/-- Inversion of a successful position resolution: the position is inside the
window. -/
theorem getIdx_ok_inv (q : CheckpointQueue) (i p : Nat)
    (h : q.getIdx i = .ok p) :
    p < q.queue.length ∧ q.getDequeIndex i = .ok p := by
  unfold CheckpointQueue.getIdx at h
  split at h
  · exact absurd h (by simp)
  next pos hdq =>
    split at h
    next c hc =>
      rw [Except.ok.injEq] at h
      subst h
      refine ⟨?_, hdq⟩
      have hlt := List.getElem?_eq_some_iff.mp hc
      exact hlt.1
    next hc => exact absurd h (by simp)

/-- The wrapped decrement of a u32 value never equals the value itself. -/
theorem u32sub_one_ne (i : Nat) : u32sub i 1 ≠ i := by
  simp only [u32sub, u32Mod]
  omega

/-- When the lookup of the queue's own `index` succeeds — as `building_mut`
performs — the window is nonempty, well-formed, and the resolved position is
the back of the window. -/
theorem getIdx_self_inv (q : CheckpointQueue) (p : Nat)
    (hidx : q.index < u32Mod) (hlen : q.queue.length < u32Mod)
    (h : q.getIdx q.index = .ok p) :
    1 ≤ q.queue.length ∧ q.queue.length ≤ q.index + 1 ∧
    p = q.queue.length - 1 := by
  obtain ⟨hp, hdq⟩ := getIdx_ok_inv q q.index p h
  obtain ⟨hle, hge, hpe⟩ := getDequeIndex_ok_inv q q.index p hdq
  have hwf : q.queue.length ≤ q.index + 1 := by
    by_contra hbig
    have := u32start_gt hidx hlen (by omega)
    omega
  have hstart := u32start_exact hidx hwf (Or.inl (by omega))
  refine ⟨by omega, hwf, ?_⟩
  rw [hpe, hstart]
  omega

/-- Inversion of a successful `sign_checkpoint` call: a Signing checkpoint was
found at position `p`, its aggregate signature accepted `(pk, s)`, and
afterwards that checkpoint carries the updated aggregate and is Complete
exactly when `done()` reported quorum; window length and index are unchanged. -/
theorem signCheckpoint_ok_inv (q : CheckpointQueue) (pk : Nat) (s : Signature)
    (q1 : CheckpointQueue)
    (h : q.signCheckpoint pk s = (.ok (), q1)) :
    ∃ p ts,
      q.signingPos = .ok (some p) ∧
      p < q.queue.length ∧
      tsSign (q.queue.getD p default).sig pk s = .ok ts ∧
      (q1.queue.getD p default).sig = ts ∧
      (q1.queue.getD p default).status
        = (if tsDone ts then CheckpointStatus.Complete
           else (q.queue.getD p default).status) ∧
      q1.index = q.index ∧ q1.queue.length = q.queue.length := by
  simp only [CheckpointQueue.signCheckpoint] at h
  split at h
  · simp at h
  · simp at h
  next p hsp =>
    obtain ⟨hplen, hdqp⟩ := getIdx_ok_inv q _ p (signingPos_some q p hsp).2.1
    split at h
    · simp at h
    next ts hts =>
      refine ⟨p, ts, hsp, hplen, hts, ?_⟩
      split at h
      next hdone =>
        split at h
        · simp at h
        next b hb =>
          split at h
          · simp at h
          next inp0 hinp =>
            rw [Prod.mk.injEq] at h
            obtain ⟨-, hq⟩ := h
            subst hq
            obtain ⟨hblen, hdqb⟩ := getIdx_ok_inv _ _ b hb
            obtain ⟨hble, hbge, hbpe⟩ := getDequeIndex_ok_inv _ _ b hdqb
            obtain ⟨hile, hige, hipe⟩ := getDequeIndex_ok_inv _ _ p hdqp
            have hne1 : u32sub q.index 1 ≠ q.index := u32sub_one_ne q.index
            have hpb : p ≠ b := by
              simp only [List.length_set] at hbpe hbge
              omega
            constructor
            · simp [List.getD_eq_getElem?_getD, List.set_set,
                List.getElem?_set_ne (Ne.symm hpb),
                List.getElem?_set_self hplen]
            constructor
            · simp [List.getD_eq_getElem?_getD, List.set_set,
                List.getElem?_set_ne (Ne.symm hpb),
                List.getElem?_set_self hplen, hdone]
            constructor
            · rfl
            · simp
      next hdone =>
        rw [Prod.mk.injEq] at h
        obtain ⟨-, hq⟩ := h
        subst hq
        constructor
        · simp [List.getD_eq_getElem?_getD, List.getElem?_set_self hplen]
        constructor
        · simp [List.getD_eq_getElem?_getD, List.getElem?_set_self hplen, hdone]
        constructor
        · rfl
        · simp

/-- Claim C2: sign_checkpoint sets the Signing checkpoint's status to Complete
exactly when, after recording the submitted signature, the accumulated signer
weight reaches the 70% (INITIAL_QUORUM_PERCENT) quorum of the SignatorySet's
total weight, as reported by the ThresholdSig collaborator's done(); the
checkpoint was in Signing state (not Complete) before the call, and the
transition to Complete happens on the very call whose recorded signature
crosses the threshold. -/
theorem c2_quorum_complete (q : CheckpointQueue) (pk : Nat) (s : Signature)
    (q1 : CheckpointQueue)
    (h : q.signCheckpoint pk s = (.ok (), q1)) :
    INITIAL_QUORUM_PERCENT = 70 ∧
    ∃ p ts,
      q.signingPos = .ok (some p) ∧
      (q.queue.getD p default).status = .Signing ∧
      tsSign (q.queue.getD p default).sig pk s = .ok ts ∧
      (q1.queue.getD p default).sig = ts ∧
      ((q1.queue.getD p default).status = .Complete ↔
        INITIAL_QUORUM_PERCENT * tsTotalWeight ts ≤ 100 * tsSignedWeight ts) ∧
      ((q1.queue.getD p default).status = .Signing ↔
        ¬INITIAL_QUORUM_PERCENT * tsTotalWeight ts ≤ 100 * tsSignedWeight ts) := by
  obtain ⟨p, ts, hsp, hplen, hts, hsig, hstat, -, -⟩ :=
    signCheckpoint_ok_inv q pk s q1 h
  have hbefore := (signingPos_some q p hsp).2.2
  have hiff : (tsDone ts = true) ↔
      INITIAL_QUORUM_PERCENT * tsTotalWeight ts ≤ 100 * tsSignedWeight ts := by
    simp [tsDone]
  refine ⟨rfl, p, ts, hsp, hbefore, hts, hsig, ?_, ?_⟩
  · rw [hstat]
    by_cases htd : tsDone ts = true
    · rw [if_pos htd]
      simp [hiff.mp htd]
    · rw [if_neg htd, hbefore]
      have hnf : ¬INITIAL_QUORUM_PERCENT * tsTotalWeight ts
          ≤ 100 * tsSignedWeight ts := fun hf => htd (hiff.mpr hf)
      simp [hnf]
  · rw [hstat]
    by_cases htd : tsDone ts = true
    · rw [if_pos htd]
      simp [hiff.mp htd]
    · rw [if_neg htd, hbefore]
      have hnf : ¬INITIAL_QUORUM_PERCENT * tsTotalWeight ts
          ≤ 100 * tsSignedWeight ts := fun hf => htd (hiff.mpr hf)
      simp [hnf]

/-- Concrete instantiation of c2_quorum_complete: at c2State a single valid
signature from the sole unit-weight signatory crosses the 70% quorum and
completes the checkpoint. -/
theorem c2_quorum_complete_witness :
    INITIAL_QUORUM_PERCENT = 70 ∧
    ∃ p ts,
      c2State.signingPos = .ok (some p) ∧
      (c2State.queue.getD p default).status = .Signing ∧
      tsSign (c2State.queue.getD p default).sig 1 ⟨true⟩ = .ok ts ∧
      (((c2State.signCheckpoint 1 ⟨true⟩).2).queue.getD p default).sig = ts ∧
      ((((c2State.signCheckpoint 1 ⟨true⟩).2).queue.getD p default).status
          = .Complete ↔
        INITIAL_QUORUM_PERCENT * tsTotalWeight ts ≤ 100 * tsSignedWeight ts) ∧
      ((((c2State.signCheckpoint 1 ⟨true⟩).2).queue.getD p default).status
          = .Signing ↔
        ¬INITIAL_QUORUM_PERCENT * tsTotalWeight ts ≤ 100 * tsSignedWeight ts) :=
  c2_quorum_complete c2State 1 ⟨true⟩ (c2State.signCheckpoint 1 ⟨true⟩).2
    (by decide)

/-- Claim C1 divergence, evaluated at a quorum-crossing input: at `c1State`
(Signing checkpoint one signature short of quorum; Building checkpoint already
holding an input with txid 9 and vout 7) the call succeeds, the Signing
checkpoint completes, and the Building checkpoint's inputs become
`[⟨9, 0, _⟩, ⟨0, 0, _⟩]`: exactly one default Input was appended at the back,
but its txid stays the default 0 — the reference to the completed
checkpoint's transaction is never attached (the assignment is commented out
in the source) — while the `vout := 0` write lands on the pre-existing input
at position 0, overwriting its vout 7. -/
theorem c1_reserve_input_divergence :
    (c1State.signCheckpoint 1 ⟨true⟩).1 = .ok () ∧
    (((c1State.signCheckpoint 1 ⟨true⟩).2).queue.getD 0 default).status
        = .Complete ∧
    (((c1State.signCheckpoint 1 ⟨true⟩).2).queue.getD 1 default).inputs
        = [⟨9, 0, default⟩, ⟨0, 0, default⟩] :=
  ⟨by decide, by decide, by decide⟩

/-- Claim C4 divergence, evaluated: `all` reads the deque at the raw global
index instead of a translated window position.  On a slid window — the state
⟨[default], 1⟩ reached from the initial queue by two successful push_building
calls at capacity 1 — the first loop iteration reads position 1 of a
1-element deque and the `unwrap()` of `None` aborts `all` (modelled as the
`panicNone` error), so `all` fails instead of returning the retained
(index, checkpoint) pair. -/
theorem c4_all_slid_window_fails :
    (initQueue.pushRun 1 []).pushRun 1 [] = (⟨[default], 1⟩ : CheckpointQueue) ∧
    CheckpointQueue.all ⟨[default], 1⟩ = .error .panicNone :=
  ⟨by decide, by decide⟩

/-- Full characterisation of a successful `push_building` call on a
well-formed state: the window becomes the old core (evicted at the front when
the append would exceed the capacity) plus one appended default checkpoint
carrying the derived SignatorySet; the length stays within the capacity; the
index advances (wrapping) exactly when the window was nonempty; and the
resulting window is well-formed. -/
theorem pushBuilding_ok_spec (q : CheckpointQueue) (cap : Nat) (ctx : ValCtx)
    (q1 : CheckpointQueue)
    (hidx : q.index < u32Mod) (hcapW : cap < u32Mod)
    (hcap : q.queue.length ≤ cap)
    (h : q.pushBuilding cap ctx = (.ok (), q1)) :
    q1.queue = (if q.queue.length + 1 > cap then q.queue.drop 1 else q.queue)
        ++ [{ (default : Checkpoint) with
                sigset := fromValidatorCtx q.index ctx }] ∧
    q1.queue.length ≤ cap ∧
    q1.index = (if q.queue.isEmpty then q.index else u32add q.index 1) ∧
    q1.queue.length ≤ q1.index + 1 := by
  simp only [CheckpointQueue.pushBuilding] at h
  split at h
  · simp at h
  next p hb =>
    rw [Prod.mk.injEq] at h
    obtain ⟨-, hq⟩ := h
    subst hq
    set nI := if q.queue.isEmpty then q.index else u32add q.index 1 with hnI
    set w := if (q.queue ++ [default]).length > cap
        then (q.queue ++ [default]).drop 1 else (q.queue ++ [default]) with hw
    have hnIlt : nI < u32Mod := by
      rw [hnI]
      split
      · exact hidx
      · simp only [u32add, u32Mod]; omega
    have hlapp : (q.queue ++ [(default : Checkpoint)]).length
        = q.queue.length + 1 := by simp
    have hldrop : ((q.queue ++ [(default : Checkpoint)]).drop 1).length
        = q.queue.length + 1 - 1 := by simp
    have hwlt : w.length < u32Mod := by
      rw [hw]; split <;> omega
    have hwle : w.length ≤ cap := by
      rw [hw]; split <;> omega
    obtain ⟨hw1, hwf, hp⟩ := getIdx_self_inv ⟨w, nI⟩ p hnIlt hwlt hb
    simp only at hw1 hwf hp
    have hcore : w = (if q.queue.length + 1 > cap then q.queue.drop 1 else q.queue)
        ++ [(default : Checkpoint)] := by
      rw [hw]
      by_cases hev : (q.queue ++ [default]).length > cap
      · have hev2 : q.queue.length + 1 > cap := by simpa using hev
        rw [if_pos hev, if_pos hev2]
        have hqne : q.queue ≠ [] := by
          intro hqe
          rw [hw, if_pos hev, hqe] at hw1
          simp at hw1
        exact List.drop_append_of_le_length (by
          have := List.length_pos.mpr hqne
          omega)
      · have hev2 : ¬q.queue.length + 1 > cap := by simpa using hev
        rw [if_neg hev, if_neg hev2]
    set core := if q.queue.length + 1 > cap then q.queue.drop 1 else q.queue
      with hcoredef
    have hlenw : w.length = core.length + 1 := by
      rw [hcore]; simp
    have hpcore : p = core.length := by omega
    have hgetD : w.getD p default = (default : Checkpoint) := by
      rw [hcore, hpcore, List.getD_eq_getElem?_getD,
        List.getElem?_append_right (le_refl core.length)]
      simp
    refine ⟨?_, ?_, ?_, ?_⟩
    · show w.set p { w.getD p default with sigset := fromValidatorCtx q.index ctx }
        = core ++ [{ (default : Checkpoint) with
            sigset := fromValidatorCtx q.index ctx }]
      rw [hgetD, hcore, hpcore,
        List.set_append_right _ _ (le_refl core.length)]
      simp
    · show (w.set p _).length ≤ cap
      rw [List.length_set]
      exact hwle
    · exact hnI.symm
    · show (w.set p _).length ≤ nI + 1
      rw [List.length_set]
      exact hwf

/-- Claim C8: every successful push_building call appends exactly one new
default (empty) Checkpoint at the back of the window — its SignatorySet
attached on creation — evicting the front entry when the window would exceed
the configured capacity, so the window length never exceeds the capacity
after a push.  (The bounded append is the spec-modelled substrate behaviour,
§4.3/§6; a call that fails is discarded whole by the host, §7.) -/
theorem c8_push_appends (q : CheckpointQueue) (cap : Nat) (ctx : ValCtx)
    (q1 : CheckpointQueue)
    (hidx : q.index < u32Mod) (hcapW : cap < u32Mod)
    (hcap : q.queue.length ≤ cap)
    (h : q.pushBuilding cap ctx = (.ok (), q1)) :
    q1.queue = (if q.queue.length + 1 > cap then q.queue.drop 1 else q.queue)
        ++ [{ (default : Checkpoint) with
                sigset := fromValidatorCtx q.index ctx }] ∧
    q1.queue.length ≤ cap :=
  ⟨(pushBuilding_ok_spec q cap ctx q1 hidx hcapW hcap h).1,
   (pushBuilding_ok_spec q cap ctx q1 hidx hcapW hcap h).2.1⟩

/-- Concrete instantiation of c8_push_appends: pushing onto the empty initial
queue at capacity 1. -/
theorem c8_push_appends_witness :
    (initQueue.pushBuilding 1 []).2.queue
        = (if initQueue.queue.length + 1 > 1 then initQueue.queue.drop 1
           else initQueue.queue)
          ++ [{ (default : Checkpoint) with
                  sigset := fromValidatorCtx initQueue.index [] }] ∧
    (initQueue.pushBuilding 1 []).2.queue.length ≤ 1 :=
  c8_push_appends initQueue 1 [] (initQueue.pushBuilding 1 []).2
    (by decide) (by decide) (by decide) (by decide)

theorem pushBuilding_index (q : CheckpointQueue) (cap : Nat) (ctx : ValCtx) :
    ((q.pushBuilding cap ctx).2).index
      = if q.queue.isEmpty then q.index else u32add q.index 1 := by
  simp only [CheckpointQueue.pushBuilding]
  split <;> rfl

theorem pushRun_index (q : CheckpointQueue) (cap : Nat) (ctx : ValCtx) :
    (q.pushRun cap ctx).index = q.index ∨
    (q.pushRun cap ctx).index
      = if q.queue.isEmpty then q.index else u32add q.index 1 := by
  simp only [CheckpointQueue.pushRun]
  split
  next u q1 heq =>
    right
    rw [← pushBuilding_index q cap ctx, heq]
  next e q2 heq =>
    left
    rfl

theorem pushRun_index_le (q : CheckpointQueue) (cap : Nat) (ctx : ValCtx) :
    (q.pushRun cap ctx).index ≤ q.index + 1 := by
  rcases pushRun_index q cap ctx with h | h
  · omega
  · rw [h]
    split
    · omega
    · simp only [u32add]
      exact le_trans (Nat.mod_le _ _) (le_refl _)

theorem pushRun_index_ge (q : CheckpointQueue) (cap : Nat) (ctx : ValCtx)
    (h : q.index + 1 < u32Mod) :
    q.index ≤ (q.pushRun cap ctx).index := by
  rcases pushRun_index q cap ctx with h1 | h1
  · omega
  · rw [h1]
    split
    · omega
    · simp only [u32add]
      rw [Nat.mod_eq_of_lt h]
      omega

theorem pushRun_index_empty (q : CheckpointQueue) (cap : Nat) (ctx : ValCtx)
    (h : q.queue = []) :
    (q.pushRun cap ctx).index = q.index := by
  rcases pushRun_index q cap ctx with h1 | h1
  · exact h1
  · rw [h1, if_pos (by simp [h])]

theorem foldl_pushRun_index_le (cap : Nat) (ctxs : List ValCtx)
    (q : CheckpointQueue) :
    (ctxs.foldl (fun a ctx => a.pushRun cap ctx) q).index
      ≤ q.index + ctxs.length := by
  induction ctxs generalizing q with
  | nil => simp
  | cons c cs ih =>
    simp only [List.foldl_cons, List.length_cons]
    have h1 := ih (q.pushRun cap c)
    have h2 := pushRun_index_le q cap c
    omega

theorem pushFold_index_bound (cap : Nat) (ctxs : List ValCtx) :
    (pushFold cap ctxs).index ≤ ctxs.length - 1 := by
  cases ctxs with
  | nil => simp [pushFold, initQueue]
  | cons c cs =>
    unfold pushFold
    simp only [List.foldl_cons, List.length_cons]
    have h0 : (initQueue.pushRun cap c).index = 0 :=
      pushRun_index_empty initQueue cap c rfl
    have h1 := foldl_pushRun_index_le cap cs (initQueue.pushRun cap c)
    rw [h0] at h1
    omega

/-- Claim C5 (amended): for every capacity, every sequence of at most 2^32
push_building calls starting from the initial (empty, index 0) queue, and
every step k of that sequence, the global index is non-decreasing and
increases by at most 1 at that step, and the very first push leaves the index
at its initial value 0.  (Beyond 2^32 calls the u32 index wraps, see the
counterexample.)  A failed call is discarded by the host and leaves the state
unchanged. -/
theorem c5_push_monotone (cap : Nat) (ctxs : List ValCtx) (k : Nat)
    (hlen : ctxs.length ≤ u32Mod) (hk : k < ctxs.length) :
    (pushFold cap (ctxs.take k)).index
      ≤ (pushFold cap (ctxs.take (k + 1))).index ∧
    (pushFold cap (ctxs.take (k + 1))).index
      ≤ (pushFold cap (ctxs.take k)).index + 1 ∧
    (pushFold cap (ctxs.take 1)).index = 0 := by
  have htake : ctxs.take (k + 1) = ctxs.take k ++ [ctxs[k]] := by
    rw [List.take_succ, List.getElem?_eq_getElem hk]
    rfl
  have hstep : pushFold cap (ctxs.take (k + 1))
      = (pushFold cap (ctxs.take k)).pushRun cap ctxs[k] := by
    rw [htake]
    unfold pushFold
    rw [List.foldl_append]
    rfl
  have hmin : (List.take k ctxs).length = k := by
    rw [List.length_take]
    omega
  have hlt : (pushFold cap (ctxs.take k)).index + 1 < u32Mod := by
    have hbound := pushFold_index_bound cap (ctxs.take k)
    rw [hmin] at hbound
    have hW : u32Mod = 4294967296 := rfl
    omega
  refine ⟨?_, ?_, ?_⟩
  · rw [hstep]
    exact pushRun_index_ge _ cap _ hlt
  · rw [hstep]
    exact pushRun_index_le _ cap _
  · cases hc : ctxs with
    | nil => rw [hc] at hk; simp at hk
    | cons c cs =>
      have h0 : (initQueue.pushRun cap c).index = 0 :=
        pushRun_index_empty initQueue cap c rfl
      show (pushFold cap [c]).index = 0
      unfold pushFold
      simpa using h0

theorem u32sub_u32add_one (a : Nat) (ha : a < u32Mod) :
    u32sub (u32add a 1) 1 = a := by
  simp only [u32add, u32sub, u32Mod] at *
  omega

theorem pushRun_single (i : Nat) :
    (⟨[default], i⟩ : CheckpointQueue).pushRun 1 []
      = ⟨[default], (i + 1) % u32Mod⟩ := by
  have hs := u32sub_u32add_one (u32add i 1) (Nat.mod_lt _ (by norm_num [u32Mod]))
  simp only [CheckpointQueue.pushRun, CheckpointQueue.pushBuilding,
    CheckpointQueue.getIdx, CheckpointQueue.getDequeIndex]
  simp only [List.isEmpty_cons, List.length_append, List.length_cons,
    List.length_nil]
  norm_num
  rw [hs]
  simp
  exact ⟨rfl, rfl⟩

theorem pushFold_replicate_one (n : Nat) :
    pushFold 1 (List.replicate (n + 1) ([] : ValCtx))
      = ⟨[default], n % u32Mod⟩ := by
  induction n with
  | zero => rfl
  | succ n ih =>
    have hrep : List.replicate (n + 2) ([] : ValCtx)
        = List.replicate (n + 1) ([] : ValCtx) ++ [[]] := by
      rw [← List.replicate_succ']
    rw [hrep]
    unfold pushFold
    rw [List.foldl_append]
    show (pushFold 1 (List.replicate (n + 1) [])).pushRun 1 [] = _
    rw [ih, pushRun_single]
    have hmod : (n % u32Mod + 1) % u32Mod = (n + 1) % u32Mod := by
      simp only [u32Mod]
      omega
    rw [hmod]

/-- Claim C5 counterexample: after exactly 2^32 push_building calls (capacity
1, all of which succeed) the global index is u32::MAX; the next successful
push wraps the u32 index around to 0, so the index strictly decreases —
the claim's unbounded monotonicity fails. -/
theorem c5_counterexample :
    (pushFold 1 (List.replicate u32Mod ([] : ValCtx))).index = u32Mod - 1 ∧
    (pushFold 1 (List.replicate (u32Mod + 1) ([] : ValCtx))).index = 0 ∧
    0 < u32Mod - 1 := by
  have h1 := pushFold_replicate_one (u32Mod - 1)
  have h2 := pushFold_replicate_one u32Mod
  rw [show u32Mod - 1 + 1 = u32Mod from by simp only [u32Mod]] at h1
  refine ⟨?_, ?_, by simp only [u32Mod]; omega⟩
  · rw [h1]
    simp only [u32Mod]
  · rw [h2]
    simp only [u32Mod]

/-- Concrete instantiation of c5_push_monotone on a two-push sequence. -/
theorem c5_push_monotone_witness :
    ([[], []] : List ValCtx).length ≤ u32Mod ∧
    ((pushFold 1 (([[], []] : List ValCtx).take 1)).index
        ≤ (pushFold 1 (([[], []] : List ValCtx).take (1 + 1))).index ∧
      (pushFold 1 (([[], []] : List ValCtx).take (1 + 1))).index
        ≤ (pushFold 1 (([[], []] : List ValCtx).take 1)).index + 1 ∧
      (pushFold 1 (([[], []] : List ValCtx).take 1)).index = 0) :=
  ⟨by decide, c5_push_monotone 1 [[], []] 1 (by decide) (by decide)⟩

/-- On a window holding fewer than two entries, `sign_checkpoint` fails with
No-Checkpoint-To-Sign and changes nothing. -/
theorem signCheckpoint_short (q : CheckpointQueue) (pk : Nat) (s : Signature)
    (h : q.queue.length < 2) :
    q.signCheckpoint pk s = (.error .noCheckpointToSign, q) := by
  have hsp : q.signingPos = .ok none := by
    unfold CheckpointQueue.signingPos
    rw [if_pos h]
  unfold CheckpointQueue.signCheckpoint
  rw [hsp]

/-- A successful `maybe_advance` either leaves the state unchanged or pushes
the first Building checkpoint onto an empty window. -/
theorem maybeAdvance_ok_inv (q q1 : CheckpointQueue) (cap : Nat) (ctx : ValCtx)
    (h : q.maybeAdvance cap ctx = (.ok (), q1)) :
    q1 = q ∨ (q.queue = [] ∧ q.pushBuilding cap ctx = (.ok (), q1)) := by
  unfold CheckpointQueue.maybeAdvance at h
  by_cases he : q.queue.isEmpty
  · rw [if_pos he] at h
    by_cases hs : (fromValidatorCtx q.index ctx).signatories.length = 0
    · rw [if_pos hs] at h
      left
      rw [Prod.mk.injEq] at h
      exact h.2.symm
    · rw [if_neg hs] at h
      right
      exact ⟨List.isEmpty_iff.mp he, h⟩
  · rw [if_neg he] at h
    left
    rw [Prod.mk.injEq] at h
    exact h.2.symm

/-- A successful `push_building` on an empty window yields a single-entry
window holding a default checkpoint with the derived SignatorySet, and keeps
the global index. -/
theorem pushBuilding_from_empty (q q1 : CheckpointQueue) (cap : Nat)
    (ctx : ValCtx) (hq : q.queue = [])
    (h : q.pushBuilding cap ctx = (.ok (), q1)) :
    q1.queue = [{ (default : Checkpoint) with
        sigset := fromValidatorCtx q.index ctx }] ∧
    q1.index = q.index := by
  simp only [CheckpointQueue.pushBuilding, hq] at h
  simp only [List.isEmpty_nil, if_true, List.nil_append,
    List.length_cons, List.length_nil] at h
  by_cases hcap : 1 > cap
  · rw [if_pos hcap] at h
    simp only [List.drop_succ_cons, List.drop_nil] at h
    split at h
    · simp at h
    next p hb =>
      obtain ⟨hlt, -⟩ := getIdx_ok_inv _ _ p hb
      simp at hlt
  · rw [if_neg hcap] at h
    split at h
    · simp at h
    next p hb =>
      obtain ⟨hlt, -⟩ := getIdx_ok_inv _ _ p hb
      simp only [List.length_cons, List.length_nil] at hlt
      have hp0 : p = 0 := by omega
      subst hp0
      rw [Prod.mk.injEq] at h
      obtain ⟨-, hq1⟩ := h
      subst hq1
      exact ⟨rfl, rfl⟩

/-- Every state reachable via `maybe_advance` and `sign_checkpoint` alone
holds at most one checkpoint, still at index 0, and every retained checkpoint
is in Building state (the Building-to-Signing transition is not implemented
in this version, so `sign_checkpoint` never succeeds on reachable states). -/
theorem reachPub_small (cap : Nat) (q : CheckpointQueue) (h : ReachPub cap q) :
    q.queue.length ≤ 1 ∧ q.index = 0 ∧
    ∀ c ∈ q.queue, c.status = .Building := by
  induction h with
  | refl => exact ⟨by simp [initQueue], rfl, by simp [initQueue]⟩
  | tail hab hbc ih =>
    rename_i b c
    obtain ⟨hlen, hidx, hall⟩ := ih
    cases hbc with
    | advance ctx qq qq1 hadv =>
      rcases maybeAdvance_ok_inv b c cap ctx hadv with heq | ⟨hemp, hpush⟩
      · subst heq
        exact ⟨hlen, hidx, hall⟩
      · obtain ⟨hq1, hi1⟩ := pushBuilding_from_empty b c cap ctx hemp hpush
        refine ⟨by rw [hq1]; simp, by rw [hi1, hidx], ?_⟩
        intro cp hc
        rw [hq1] at hc
        simp only [List.mem_singleton] at hc
        rw [hc]
        rfl
    | sign pk s qq qq1 hsig =>
      have hshort := signCheckpoint_short b pk s (by omega)
      rw [hshort] at hsig
      simp at hsig

/-- Inductive well-formedness of every state reachable via `maybe_advance`,
`push_building` and `sign_checkpoint` (for a u32 capacity): the window length
never exceeds `index + 1` or the capacity, the index is a u32, and an empty
window only occurs at index 0.  At the u32 wrap-around, `building_mut`'s
lookup fails unless the capacity forces a one-entry window, so every
committed push preserves well-formedness. -/
theorem reachAll_wf (cap : Nat) (hcapW : cap < u32Mod) (q : CheckpointQueue)
    (h : ReachAll cap q) :
    q.queue.length ≤ q.index + 1 ∧ q.index < u32Mod ∧
    q.queue.length ≤ cap ∧ (q.queue.length = 0 → q.index = 0) := by
  induction h with
  | refl =>
    refine ⟨by simp [initQueue], by simp [initQueue, u32Mod], by simp [initQueue],
      fun _ => rfl⟩
  | tail hab hbc ih =>
    rename_i b c
    obtain ⟨hwf, hidx, hcaple, hemp⟩ := ih
    cases hbc with
    | advance ctx qq qq1 hadv =>
      rcases maybeAdvance_ok_inv b c cap ctx hadv with heq | ⟨hempq, hpush⟩
      · subst heq
        exact ⟨hwf, hidx, hcaple, hemp⟩
      · obtain ⟨hq1, hle, hieq, hwf1⟩ :=
          pushBuilding_ok_spec b cap ctx c hidx hcapW (by simp [hempq]) hpush
        refine ⟨hwf1, ?_, hle, ?_⟩
        · rw [hieq]
          split
          · exact hidx
          · simp only [u32add, u32Mod]
            omega
        · intro hc0
          rw [hq1] at hc0
          simp at hc0
    | push ctx qq qq1 hpush =>
      obtain ⟨hq1, hle, hieq, hwf1⟩ :=
        pushBuilding_ok_spec b cap ctx c hidx hcapW hcaple hpush
      refine ⟨hwf1, ?_, hle, ?_⟩
      · rw [hieq]
        split
        · exact hidx
        · simp only [u32add, u32Mod]
          omega
      · intro hc0
        rw [hq1] at hc0
        simp at hc0
    | sign pk s qq qq1 hsig =>
      obtain ⟨p, ts, -, -, -, -, -, hieq, hleq⟩ :=
        signCheckpoint_ok_inv b pk s c hsig
      exact ⟨by rw [hleq, hieq]; exact hwf, by rw [hieq]; exact hidx,
        by rw [hleq]; exact hcaple, by rw [hleq, hieq]; exact hemp⟩

/-- Claim C10: in every state reachable from the initial empty queue via
maybe_advance, push_building and sign_checkpoint, the window length is at
most `global index + 1`, and the unsigned computation
`start = index + 1 - queue.len()` in `get_deque_index` equals the exact
(non-negative) value — it never underflows — so `get`/`get_mut` never fail
for that reason. -/
theorem c10_no_underflow (cap : Nat) (q : CheckpointQueue)
    (hcapW : cap < u32Mod) (h : ReachAll cap q) :
    q.queue.length ≤ q.index + 1 ∧
    u32sub (u32add q.index 1) q.queue.length
      = q.index + 1 - q.queue.length := by
  obtain ⟨hwf, hidx, -, hemp⟩ := reachAll_wf cap hcapW q h
  refine ⟨hwf, u32start_exact hidx hwf ?_⟩
  rcases Nat.eq_zero_or_pos q.queue.length with h0 | h0
  · right
    rw [hemp h0]
    simp [u32Mod]
  · left
    omega

/-- Claim C6: in every state reachable from the initial empty queue via
maybe_advance and sign_checkpoint, at most one checkpoint is in Signing
state and, if present, it is the second-newest entry; the newest entry is
Building (or is the sole entry); and every entry other than the two newest is
Complete. -/
theorem c6_signing_invariant (cap : Nat) (q : CheckpointQueue)
    (h : ReachPub cap q) :
    (q.queue.filter (fun c => c.status == .Signing)).length ≤ 1 ∧
    (∀ i, i < q.queue.length →
        (q.queue.getD i default).status = .Signing → i + 2 = q.queue.length) ∧
    (1 ≤ q.queue.length →
        ((q.queue.getD (q.queue.length - 1) default).status = .Building ∨
          q.queue.length = 1)) ∧
    (∀ i, i + 2 < q.queue.length →
        (q.queue.getD i default).status = .Complete) := by
  obtain ⟨hlen, -, hall⟩ := reachPub_small cap q h
  have hmem : ∀ i, i < q.queue.length → q.queue.getD i default ∈ q.queue := by
    intro i hi
    rw [List.getD_eq_getElem?_getD, List.getElem?_eq_getElem hi,
      Option.getD_some]
    exact List.getElem_mem hi
  refine ⟨?_, ?_, ?_, ?_⟩
  · have hf := List.length_filter_le (fun c => c.status == .Signing) q.queue
    omega
  · intro i hi hs
    have hb := hall _ (hmem i hi)
    rw [hb] at hs
    exact absurd hs (by simp)
  · intro h1
    left
    exact hall _ (hmem _ (by omega))
  · intro i hi
    omega

/-- Concrete instantiation of c6_signing_invariant at the state reached by
one maybe_advance step from the initial queue. -/
theorem c6_signing_invariant_witness :
    ReachPub 1 c6State ∧
    (((c6State.queue.filter (fun c => c.status == .Signing)).length ≤ 1) ∧
      (∀ i, i < c6State.queue.length →
          (c6State.queue.getD i default).status = .Signing →
          i + 2 = c6State.queue.length) ∧
      (1 ≤ c6State.queue.length →
          ((c6State.queue.getD (c6State.queue.length - 1) default).status
              = .Building ∨ c6State.queue.length = 1)) ∧
      (∀ i, i + 2 < c6State.queue.length →
          (c6State.queue.getD i default).status = .Complete)) := by
  have hstep : ReachPub 1 c6State :=
    Relation.ReflTransGen.single
      (StepPub.advance c6Ctx initQueue c6State (by decide))
  exact ⟨hstep, c6_signing_invariant 1 c6State hstep⟩

/-- Concrete instantiation of c10_no_underflow at the initial state. -/
theorem c10_no_underflow_witness :
    (1 : Nat) < u32Mod ∧
    (initQueue.queue.length ≤ initQueue.index + 1 ∧
      u32sub (u32add initQueue.index 1) initQueue.queue.length
        = initQueue.index + 1 - initQueue.queue.length) :=
  ⟨by decide, c10_no_underflow 1 initQueue (by decide)
    Relation.ReflTransGen.refl⟩
